import Mathlib

set_option maxHeartbeats 1000000
set_option maxRecDepth 8192

/-
  Verification of the ZoteroAssistant provider-session and streaming-completion
  core: the GitHub device-flow credential manager (GitHubDeviceFlow), the
  credential vault (TokenStorage) and the Copilot chat client (CopilotClient).

  The JavaScript source is shallowly embedded: each method becomes a pure Lean
  function over explicit state, with the platform's JSON.parse / JSON.stringify
  modelled by an executable JSON parser and serializer defined below (integers
  only, the common single-character string escapes, no \u escapes - this covers
  every JSON value the embedded code produces or consumes).
-/

namespace ZA

/-- JSON values as produced by JSON.parse.  Numbers are modelled as integers:
the embedded code only ever stores and compares integral timestamps. -/
inductive Json where
  | null
  | bool (b : Bool)
  | num (n : Int)
  | str (s : String)
  | arr (elems : List Json)
  | obj (fields : List (String × Json))
deriving Repr

/-! ### Serializer (JSON.stringify) -/

/-- Characters escaped by the serializer: quote and backslash. -/
def escapeChar (c : Char) : List Char :=
  if c = '"' ∨ c = '\\' then ['\\', c] else [c]

def escapeList : List Char → List Char
  | [] => []
  | c :: cs => escapeChar c ++ escapeList cs

/-- Little-endian decimal digits of a natural number. -/
def natDigitsRev (n : Nat) : List Nat :=
  if _h : n < 10 then [n] else (n % 10) :: natDigitsRev (n / 10)
decreasing_by
  exact Nat.div_lt_self (by omega) (by omega)

def digitChar (d : Nat) : Char := Char.ofNat (48 + d)

def natChars (n : Nat) : List Char := (natDigitsRev n).reverse.map digitChar

def intChars (i : Int) : List Char :=
  if i < 0 then '-' :: natChars i.natAbs else natChars i.natAbs

mutual

/-- JSON.stringify (no whitespace, as in JavaScript).  The closing bracket of a
container is emitted by the element serializer, mirroring the parser below. -/
def Json.ser : Json → List Char
  | .null => 'n' :: 'u' :: 'l' :: 'l' :: []
  | .bool true => 't' :: 'r' :: 'u' :: 'e' :: []
  | .bool false => 'f' :: 'a' :: 'l' :: 's' :: 'e' :: []
  | .num n => intChars n
  | .str s => '"' :: (escapeList s.data ++ ['"'])
  | .arr es => '[' :: serElems es
  | .obj fs => '\x7b' :: serFields fs

def serElems : List Json → List Char
  | [] => [']']
  | e :: es => Json.ser e ++ serElemsNext es

def serElemsNext : List Json → List Char
  | [] => [']']
  | e :: es => ',' :: (Json.ser e ++ serElemsNext es)

def serFields : List (String × Json) → List Char
  | [] => ['\x7d']
  | (k, v) :: fs =>
      '"' :: (escapeList k.data ++ '"' :: ':' :: (Json.ser v ++ serFieldsNext fs))

def serFieldsNext : List (String × Json) → List Char
  | [] => ['\x7d']
  | (k, v) :: fs =>
      ',' :: '"' :: (escapeList k.data ++ '"' :: ':' :: (Json.ser v ++ serFieldsNext fs))

end

/-- JSON.stringify as a string-valued function. -/
def jsonStringify (v : Json) : String := ⟨Json.ser v⟩

/-! ### Parser (JSON.parse) -/

def isWsChar (c : Char) : Bool := c = ' ' || c = '\t' || c = '\n' || c = '\r'

def skipWs : List Char → List Char
  | [] => []
  | c :: cs => if isWsChar c then skipWs cs else c :: cs

/-- Decode one character of a backslash escape sequence. -/
def escDecode (c : Char) : Option Char :=
  if c = '"' then some '"'
  else if c = '\\' then some '\\'
  else if c = '/' then some '/'
  else if c = 'n' then some '\n'
  else if c = 't' then some '\t'
  else if c = 'r' then some '\r'
  else if c = 'b' then some (Char.ofNat 8)
  else if c = 'f' then some (Char.ofNat 12)
  else none

mutual

/-- Parse the body of a string literal after the opening quote; returns the
decoded characters and the input after the closing quote. -/
def parseStrBody : List Char → Option (List Char × List Char)
  | [] => none
  | c :: rest =>
    if c = '"' then some ([], rest)
    else if c = '\\' then parseStrEsc rest
    else (parseStrBody rest).map fun p => (c :: p.1, p.2)

/-- Parse the character after a backslash inside a string literal. -/
def parseStrEsc : List Char → Option (List Char × List Char)
  | [] => none
  | e :: rest2 =>
    match escDecode e with
    | some d => (parseStrBody rest2).map fun p => (d :: p.1, p.2)
    | none => none

end

def parseDigitsAux (acc : Nat) : List Char → Nat × List Char
  | [] => (acc, [])
  | c :: cs =>
    if c.isDigit then parseDigitsAux (10 * acc + (c.toNat - 48)) cs
    else (acc, c :: cs)

def headDigitB : List Char → Bool
  | [] => false
  | c :: _ => c.isDigit

def parseNum : List Char → Option (Int × List Char)
  | [] => none
  | c :: cs =>
    if c = '-' then
      if headDigitB cs then
        let p := parseDigitsAux 0 cs
        some (-(p.1 : Int), p.2)
      else none
    else if c.isDigit then
      let p := parseDigitsAux 0 (c :: cs)
      some ((p.1 : Int), p.2)
    else none

def expectLit : List Char → List Char → Option (List Char)
  | [], cs => some cs
  | _ :: _, [] => none
  | e :: es, c :: cs => if c = e then expectLit es cs else none

/-- Parse the elements of an array after the opening bracket (depth-limited
value parser passed as `pv`; `fl` bounds the number of elements). -/
def parseElemsAux (pv : List Char → Option (Json × List Char)) :
    Nat → List Char → Option (List Json × List Char)
  | 0, _ => none
  | fl + 1, cs =>
    match skipWs cs with
    | [] => none
    | c :: rest =>
      if c = ']' then some ([], rest)
      else
        match pv (c :: rest) with
        | none => none
        | some (v, r1) =>
          match skipWs r1 with
          | [] => none
          | c2 :: r2 =>
            if c2 = ',' then (parseElemsAux pv fl r2).map fun p => (v :: p.1, p.2)
            else if c2 = ']' then some ([v], r2)
            else none

/-- Parse the fields of an object after the opening brace. -/
def parseFieldsAux (pv : List Char → Option (Json × List Char)) :
    Nat → List Char → Option (List (String × Json) × List Char)
  | 0, _ => none
  | fl + 1, cs =>
    match skipWs cs with
    | [] => none
    | c :: rest =>
      if c = '\x7d' then some ([], rest)
      else if c = '"' then
        match parseStrBody rest with
        | none => none
        | some (k, r1) =>
          match skipWs r1 with
          | [] => none
          | c2 :: r2 =>
            if c2 = ':' then
              match pv r2 with
              | none => none
              | some (v, r3) =>
                match skipWs r3 with
                | [] => none
                | c3 :: r4 =>
                  if c3 = ',' then
                    (parseFieldsAux pv fl r4).map fun p => ((⟨k⟩, v) :: p.1, p.2)
                  else if c3 = '\x7d' then some ([(⟨k⟩, v)], r4)
                  else none
            else none
      else none

/-- Depth-limited JSON value parser. -/
def parseVal : Nat → List Char → Option (Json × List Char)
  | 0, _ => none
  | d + 1, cs =>
    match skipWs cs with
    | [] => none
    | c :: rest =>
      if c = 'n' then (expectLit ['u', 'l', 'l'] rest).map fun r => (.null, r)
      else if c = 't' then (expectLit ['r', 'u', 'e'] rest).map fun r => (.bool true, r)
      else if c = 'f' then (expectLit ['a', 'l', 's', 'e'] rest).map fun r => (.bool false, r)
      else if c = '"' then (parseStrBody rest).map fun p => (.str ⟨p.1⟩, p.2)
      else if c = '[' then
        (parseElemsAux (parseVal d) (rest.length + 1) rest).map fun p => (.arr p.1, p.2)
      else if c = '\x7b' then
        (parseFieldsAux (parseVal d) (rest.length + 1) rest).map fun p => (.obj p.1, p.2)
      else if c = '-' || c.isDigit then
        (parseNum (c :: rest)).map fun p => (.num p.1, p.2)
      else none

/-- JSON.parse: whole-input parse, allowing surrounding whitespace.  Returns
`none` where JSON.parse would throw. -/
def jsonParse (s : String) : Option Json :=
  match parseVal (s.data.length + 1) s.data with
  | some (v, rest) => if skipWs rest = [] then some v else none
  | none => none

/-! ### Parse-serialize roundtrip -/

mutual

/-- Nesting depth of a JSON value, the fuel the parser needs for it. -/
def Json.depth : Json → Nat
  | .null => 1
  | .bool _ => 1
  | .num _ => 1
  | .str _ => 1
  | .arr es => depthList es + 1
  | .obj fs => depthFields fs + 1

def depthList : List Json → Nat
  | [] => 0
  | e :: es => max (Json.depth e) (depthList es)

def depthFields : List (String × Json) → Nat
  | [] => 0
  | (_, v) :: fs => max (Json.depth v) (depthFields fs)

end

/-- True when the list does not start with a decimal digit (so that a number
serialized in front of it keeps its boundary). -/
def headSafeB : List Char → Bool
  | [] => true
  | c :: _ => !c.isDigit

/-- Structural induction for `Json` through the nested lists. -/
theorem Json.inductionOn (P : Json → Prop)
    (hnull : P .null) (hbool : ∀ b, P (.bool b)) (hnum : ∀ n, P (.num n))
    (hstr : ∀ s, P (.str s))
    (harr : ∀ es, (∀ e ∈ es, P e) → P (.arr es))
    (hobj : ∀ fs, (∀ kv ∈ fs, P kv.2) → P (.obj fs)) :
    ∀ v, P v
  | .null => hnull
  | .bool b => hbool b
  | .num n => hnum n
  | .str s => hstr s
  | .arr es => harr es (fun e he =>
      Json.inductionOn P hnull hbool hnum hstr harr hobj e)
  | .obj fs => hobj fs (fun kv hkv =>
      Json.inductionOn P hnull hbool hnum hstr harr hobj kv.2)
termination_by v => sizeOf v
decreasing_by
  · have h1 := List.sizeOf_lt_of_mem he
    simp only [Json.arr.sizeOf_spec]
    omega
  · have h1 := List.sizeOf_lt_of_mem hkv
    obtain ⟨k, v⟩ := kv
    simp only [Prod.mk.sizeOf_spec] at h1
    simp only [Json.obj.sizeOf_spec]
    omega

theorem digitChar_facts (d : Nat) (h : d < 10) :
    (digitChar d).isDigit = true ∧ (digitChar d).toNat - 48 = d ∧
    isWsChar (digitChar d) = false ∧ digitChar d ≠ ']' ∧ digitChar d ≠ '\x7d' ∧
    digitChar d ≠ ',' ∧ digitChar d ≠ '-' ∧ digitChar d ≠ 'n' ∧
    digitChar d ≠ 't' ∧ digitChar d ≠ 'f' ∧ digitChar d ≠ '"' ∧
    digitChar d ≠ '[' ∧ digitChar d ≠ '\x7b' ∧ digitChar d ≠ ':' := by
  interval_cases d <;> decide

theorem natDigitsRev_lt10 {n : Nat} (h : n < 10) : natDigitsRev n = [n] := by
  rw [natDigitsRev]
  simp [h]

theorem natDigitsRev_ge10 {n : Nat} (h : ¬n < 10) :
    natDigitsRev n = (n % 10) :: natDigitsRev (n / 10) := by
  conv_lhs => rw [natDigitsRev]
  simp [h]

theorem natDigitsRev_ne_nil (n : Nat) : natDigitsRev n ≠ [] := by
  rw [natDigitsRev]
  split <;> simp

theorem natDigitsRev_lt (n : Nat) : ∀ d ∈ natDigitsRev n, d < 10 := by
  induction n using Nat.strong_induction_on with
  | _ n ih =>
    intro d hd
    rw [natDigitsRev] at hd
    split at hd
    · simp at hd
      omega
    · rcases List.mem_cons.mp hd with h | h
      · omega
      · exact ih (n / 10) (Nat.div_lt_self (by omega) (by omega)) d h

/-- The serialization of a natural number starts with a digit character. -/
theorem natChars_cons (n : Nat) :
    ∃ d tail, natChars n = digitChar d :: tail ∧ d < 10 := by
  unfold natChars
  rcases h : (natDigitsRev n).reverse with _ | ⟨d, t⟩
  · exact absurd (List.reverse_eq_nil_iff.mp h) (natDigitsRev_ne_nil n)
  · refine ⟨d, t.map digitChar, by simp, ?_⟩
    have : d ∈ natDigitsRev n := by
      have : d ∈ (natDigitsRev n).reverse := by simp [h]
      simpa using this
    exact natDigitsRev_lt n d this

theorem parseDigitsAux_stop (acc : Nat) (rest : List Char)
    (h : headSafeB rest = true) : parseDigitsAux acc rest = (acc, rest) := by
  cases rest with
  | nil => rfl
  | cons c cs =>
    simp only [headSafeB, Bool.not_eq_true'] at h
    simp [parseDigitsAux, h]

theorem parseDigitsAux_cons_digit (acc : Nat) (c : Char) (cs : List Char)
    (h : c.isDigit = true) :
    parseDigitsAux acc (c :: cs) = parseDigitsAux (10 * acc + (c.toNat - 48)) cs := by
  conv_lhs => rw [parseDigitsAux]
  rw [if_pos h]

theorem parseDigitsAux_append (n : Nat) : ∀ acc rest,
    parseDigitsAux acc (natChars n ++ rest)
      = parseDigitsAux (acc * 10 ^ (natDigitsRev n).length + n) rest := by
  induction n using Nat.strong_induction_on with
  | _ n ih =>
    intro acc rest
    by_cases h : n < 10
    · have hd := digitChar_facts n h
      have h1 : natChars n = [digitChar n] := by
        unfold natChars
        rw [natDigitsRev_lt10 h]
        rfl
      have h2 : (natDigitsRev n).length = 1 := by
        rw [natDigitsRev_lt10 h]
        rfl
      rw [h1, h2, List.singleton_append, parseDigitsAux_cons_digit _ _ _ hd.1, hd.2.1]
      congr 1
      ring
    · have hstep : natChars n = natChars (n / 10) ++ [digitChar (n % 10)] := by
        unfold natChars
        rw [natDigitsRev_ge10 h]
        simp
      have hlen : (natDigitsRev n).length = (natDigitsRev (n / 10)).length + 1 := by
        rw [natDigitsRev_ge10 h]
        rfl
      have hdiv : n / 10 < n := Nat.div_lt_self (by omega) (by omega)
      have hmod := digitChar_facts (n % 10) (Nat.mod_lt n (by omega))
      rw [hstep, List.append_assoc, ih (n / 10) hdiv acc]
      rw [List.singleton_append, parseDigitsAux_cons_digit _ _ _ hmod.1, hmod.2.1]
      rw [hlen]
      congr 1
      have key : ∀ B m : Nat, 10 * (B + m / 10) + m % 10 = B * 10 + m := by
        intro B m
        omega
      calc 10 * (acc * 10 ^ (natDigitsRev (n / 10)).length + n / 10) + (n % 10)
          = (acc * 10 ^ (natDigitsRev (n / 10)).length) * 10 + n :=
            key (acc * 10 ^ (natDigitsRev (n / 10)).length) n
        _ = acc * 10 ^ ((natDigitsRev (n / 10)).length + 1) + n := by ring

theorem parseNum_natChars (n : Nat) (rest : List Char) (h : headSafeB rest = true) :
    parseNum (natChars n ++ rest) = some ((n : Int), rest) := by
  obtain ⟨d, tail, heq, hd10⟩ := natChars_cons n
  have hd := digitChar_facts d hd10
  have hmain := parseDigitsAux_append n 0 rest
  rw [parseDigitsAux_stop _ _ h] at hmain
  simp only [Nat.zero_mul, Nat.zero_add] at hmain
  rw [heq] at hmain ⊢
  rw [List.cons_append] at hmain
  rw [List.cons_append, parseNum]
  simp [hd.2.2.2.2.2.2.1, hd.1, hmain]

theorem parseNum_intChars (i : Int) (rest : List Char) (h : headSafeB rest = true) :
    parseNum (intChars i ++ rest) = some (i, rest) := by
  unfold intChars
  by_cases hneg : i < 0
  · simp only [if_pos hneg, List.cons_append]
    obtain ⟨d, tail, heq, hd10⟩ := natChars_cons i.natAbs
    have hd := digitChar_facts d hd10
    have hmain := parseDigitsAux_append i.natAbs 0 rest
    rw [parseDigitsAux_stop _ _ h] at hmain
    simp only [Nat.zero_mul, Nat.zero_add] at hmain
    rw [parseNum]
    rw [heq] at hmain ⊢
    rw [List.cons_append] at hmain
    simp only [List.cons_append, if_pos rfl]
    simp only [headDigitB, hd.1, hmain, if_pos]
    have hi : -((i.natAbs : Nat) : Int) = i := by omega
    rw [hi]
  · simp only [if_neg hneg]
    have : ((i.natAbs : Nat) : Int) = i := by omega
    rw [parseNum_natChars _ _ h, this]

theorem parseStrBody_escape : ∀ (s : List Char) (rest : List Char),
    parseStrBody (escapeList s ++ '"' :: rest) = some (s, rest) := by
  intro s
  induction s with
  | nil =>
    intro rest
    show parseStrBody ('"' :: rest) = some ([], rest)
    rw [parseStrBody]
    simp
  | cons c cs ih =>
    intro rest
    simp only [escapeList, List.append_assoc]
    by_cases hc : c = '"' ∨ c = '\\'
    · have he : escDecode c = some c := by
        rcases hc with h | h <;> subst h <;> rfl
      simp only [escapeChar, if_pos hc, List.cons_append, List.nil_append]
      rw [parseStrBody]
      simp only [show ('\\' : Char) ≠ '"' by decide, if_neg, if_pos rfl, reduceIte]
      rw [parseStrEsc]
      simp [he, ih rest]
    · push_neg at hc
      simp only [escapeChar, if_neg (by tauto : ¬(c = '"' ∨ c = '\\')),
        List.cons_append, List.nil_append]
      rw [parseStrBody]
      simp [if_neg hc.1, if_neg hc.2, ih rest]

/-- The serialization of any value starts with a non-whitespace character that
is not a closing bracket, closing brace, comma, colon or digit-continuation
hazard for the surrounding parser. -/
theorem ser_head (v : Json) :
    ∃ c cs, Json.ser v = c :: cs ∧ isWsChar c = false ∧ c ≠ ']' ∧ c ≠ '\x7d' ∧
      c ≠ ',' ∧ c ≠ ':' := by
  cases v with
  | null => exact ⟨'n', _, rfl, by decide, by decide, by decide, by decide, by decide⟩
  | bool b =>
    cases b
    · exact ⟨'f', _, rfl, by decide, by decide, by decide, by decide, by decide⟩
    · exact ⟨'t', _, rfl, by decide, by decide, by decide, by decide, by decide⟩
  | num i =>
    by_cases hneg : i < 0
    · refine ⟨'-', natChars i.natAbs, ?_, by decide, by decide, by decide, by decide,
        by decide⟩
      rw [Json.ser]
      simp [intChars, hneg]
    · obtain ⟨d, tail, heq, hd10⟩ := natChars_cons i.natAbs
      have hd := digitChar_facts d hd10
      refine ⟨digitChar d, tail, ?_, hd.2.2.1, hd.2.2.2.1, hd.2.2.2.2.1,
        hd.2.2.2.2.2.1, hd.2.2.2.2.2.2.2.2.2.2.2.2.2⟩
      rw [Json.ser]
      simp [intChars, hneg, heq]
  | str s => exact ⟨'"', _, rfl, by decide, by decide, by decide, by decide, by decide⟩
  | arr es => exact ⟨'[', _, rfl, by decide, by decide, by decide, by decide, by decide⟩
  | obj fs => exact ⟨'\x7b', _, rfl, by decide, by decide, by decide, by decide, by decide⟩

theorem ser_ne_nil (v : Json) : Json.ser v ≠ [] := by
  obtain ⟨c, cs, h, -⟩ := ser_head v
  simp [h]

theorem serElemsNext_length (es : List Json) :
    es.length + 1 ≤ (serElemsNext es).length := by
  induction es with
  | nil => simp [serElemsNext]
  | cons e es ih =>
    have h1 : 1 ≤ (Json.ser e).length := by
      rcases h : Json.ser e with _ | _
      · exact absurd h (ser_ne_nil e)
      · simp
    simp only [serElemsNext, List.length_cons, List.length_append]
    omega

theorem serElems_length (es : List Json) :
    es.length + 1 ≤ (serElems es).length := by
  cases es with
  | nil => simp [serElems]
  | cons e es =>
    have h1 : 1 ≤ (Json.ser e).length := by
      rcases h : Json.ser e with _ | _
      · exact absurd h (ser_ne_nil e)
      · simp
    have h2 := serElemsNext_length es
    simp only [serElems, List.length_cons, List.length_append]
    omega

theorem serFieldsNext_length (fs : List (String × Json)) :
    fs.length + 1 ≤ (serFieldsNext fs).length := by
  induction fs with
  | nil => simp [serFieldsNext]
  | cons kv fs ih =>
    obtain ⟨k, v⟩ := kv
    simp only [serFieldsNext, List.length_cons, List.length_append]
    omega

theorem serFields_length (fs : List (String × Json)) :
    fs.length + 1 ≤ (serFields fs).length := by
  cases fs with
  | nil => simp [serFields]
  | cons kv fs =>
    obtain ⟨k, v⟩ := kv
    have h2 := serFieldsNext_length fs
    simp only [serFields, List.length_cons, List.length_append]
    omega

theorem depth_pos (v : Json) : 1 ≤ Json.depth v := by
  cases v <;> rw [Json.depth] <;> omega

theorem depth_le_depthList {e : Json} {es : List Json} (h : e ∈ es) :
    Json.depth e ≤ depthList es := by
  induction es with
  | nil => cases h
  | cons a l ih =>
    rw [depthList]
    rcases List.mem_cons.mp h with h1 | h1
    · subst h1
      exact le_max_left _ _
    · exact le_trans (ih h1) (le_max_right _ _)

theorem depth_le_depthFields {kv : String × Json} {fs : List (String × Json)}
    (h : kv ∈ fs) : Json.depth kv.2 ≤ depthFields fs := by
  induction fs with
  | nil => cases h
  | cons a l ih =>
    obtain ⟨k, v⟩ := a
    rw [depthFields]
    rcases List.mem_cons.mp h with h1 | h1
    · subst h1
      exact le_max_left _ _
    · exact le_trans (ih h1) (le_max_right _ _)

theorem skipWs_of_head {c : Char} (h : isWsChar c = false) :
    ∀ cs, skipWs (c :: cs) = c :: cs := fun cs => by simp [skipWs, h]

theorem parseElemsAux_ser (d : Nat)
    (ihd : ∀ v rest, Json.depth v ≤ d → headSafeB rest = true →
      parseVal d (Json.ser v ++ rest) = some (v, rest)) :
    ∀ (es : List Json) (fl : Nat) (rest : List Char),
      (∀ e ∈ es, Json.depth e ≤ d) → es.length + 1 ≤ fl →
      parseElemsAux (parseVal d) fl (serElems es ++ rest) = some (es, rest) := by
  intro es
  induction es with
  | nil =>
    intro fl rest _ hfl
    obtain ⟨fl2, rfl⟩ : ∃ fl2, fl = fl2 + 1 := ⟨fl - 1, by omega⟩
    rw [serElems, List.singleton_append, parseElemsAux, skipWs_of_head (by decide)]
    simp
  | cons e es ihes =>
    intro fl rest hmem hfl
    obtain ⟨fl2, rfl⟩ : ∃ fl2, fl = fl2 + 1 := ⟨fl - 1, by omega⟩
    obtain ⟨c, cs, hser, hws, hne1, hne2, hne3, hne4⟩ := ser_head e
    have harr : serElems (e :: es) ++ rest = c :: (cs ++ (serElemsNext es ++ rest)) := by
      rw [serElems, hser]
      simp
    have hsafeNext : headSafeB (serElemsNext es ++ rest) = true := by
      cases es <;> rw [serElemsNext] <;> rfl
    have hpv : parseVal d (Json.ser e ++ (serElemsNext es ++ rest))
        = some (e, serElemsNext es ++ rest) :=
      ihd e _ (hmem e (by simp)) hsafeNext
    have hback : c :: (cs ++ (serElemsNext es ++ rest))
        = Json.ser e ++ (serElemsNext es ++ rest) := by
      rw [hser]
      simp
    rw [harr, parseElemsAux, skipWs_of_head hws]
    simp only [if_neg hne1]
    rw [hback, hpv]
    simp only []
    cases es with
    | nil =>
      rw [serElemsNext, List.singleton_append, skipWs_of_head (by decide)]
      simp
    | cons e2 es2 =>
      rw [serElemsNext,
        show (',' :: (Json.ser e2 ++ serElemsNext es2)) ++ rest
          = ',' :: (Json.ser e2 ++ serElemsNext es2 ++ rest) from by simp,
        skipWs_of_head (by decide)]
      simp only [if_pos rfl]
      rw [show Json.ser e2 ++ serElemsNext es2 ++ rest
            = serElems (e2 :: es2) ++ rest from by rw [serElems]; try simp,
        ihes fl2 rest (fun x hx => hmem x (List.mem_cons_of_mem _ hx))
          (by simp at hfl ⊢; omega)]
      rfl

theorem parseFieldsAux_ser (d : Nat)
    (ihd : ∀ v rest, Json.depth v ≤ d → headSafeB rest = true →
      parseVal d (Json.ser v ++ rest) = some (v, rest)) :
    ∀ (fs : List (String × Json)) (fl : Nat) (rest : List Char),
      (∀ kv ∈ fs, Json.depth kv.2 ≤ d) → fs.length + 1 ≤ fl →
      parseFieldsAux (parseVal d) fl (serFields fs ++ rest) = some (fs, rest) := by
  intro fs
  induction fs with
  | nil =>
    intro fl rest _ hfl
    obtain ⟨fl2, rfl⟩ : ∃ fl2, fl = fl2 + 1 := ⟨fl - 1, by omega⟩
    rw [serFields, List.singleton_append, parseFieldsAux, skipWs_of_head (by decide)]
    simp
  | cons kv fs ihfs =>
    obtain ⟨k, kd, hk⟩ : ∃ k1 kd, kv = (k1, kd) := ⟨kv.1, kv.2, rfl⟩
    subst hk
    intro fl rest hmem hfl
    obtain ⟨fl2, rfl⟩ : ∃ fl2, fl = fl2 + 1 := ⟨fl - 1, by omega⟩
    have harr : serFields ((k, kd) :: fs) ++ rest
        = '"' :: (escapeList k.data ++
            '"' :: (':' :: (Json.ser kd ++ (serFieldsNext fs ++ rest)))) := by
      rw [serFields]
      simp
    have hsafeNext : headSafeB (serFieldsNext fs ++ rest) = true := by
      cases fs with
      | nil => rfl
      | cons kv2 fs2 =>
        obtain ⟨k2, v2⟩ := kv2
        rw [serFieldsNext]
        rfl
    have hpv : parseVal d (Json.ser kd ++ (serFieldsNext fs ++ rest))
        = some (kd, serFieldsNext fs ++ rest) :=
      ihd kd _ (hmem (k, kd) (by simp)) hsafeNext
    rw [harr, parseFieldsAux, skipWs_of_head (by decide)]
    simp only [if_neg (by decide : ¬('"' : Char) = '\x7d'), if_pos rfl]
    rw [show escapeList k.data ++ '"' :: (':' :: (Json.ser kd ++ (serFieldsNext fs ++ rest)))
          = escapeList k.data ++ '"' :: (':' :: (Json.ser kd ++ (serFieldsNext fs ++ rest)))
        from rfl,
      parseStrBody_escape]
    simp only []
    rw [skipWs_of_head (by decide)]
    simp only [if_pos rfl]
    rw [hpv]
    simp only []
    cases fs with
    | nil =>
      rw [serFieldsNext, List.singleton_append, skipWs_of_head (by decide)]
      simp only [if_neg (by decide : ¬('\x7d' : Char) = ','), if_pos rfl]
      have : (⟨k.data⟩ : String) = k := by
        cases k
        rfl
      rw [this]
      simp
    | cons kv2 fs2 =>
      obtain ⟨k2, v2⟩ := kv2
      rw [serFieldsNext,
        show (',' :: ('"' :: (escapeList k2.data ++ '"' :: ':' ::
              (Json.ser v2 ++ serFieldsNext fs2)))) ++ rest
          = ',' :: (('"' :: (escapeList k2.data ++ '"' :: ':' ::
              (Json.ser v2 ++ serFieldsNext fs2))) ++ rest) from by simp,
        skipWs_of_head (by decide)]
      simp only [if_pos rfl]
      rw [show ('"' :: (escapeList k2.data ++ '"' :: ':' ::
              (Json.ser v2 ++ serFieldsNext fs2))) ++ rest
            = serFields ((k2, v2) :: fs2) ++ rest from by rw [serFields],
        ihfs fl2 rest (fun x hx => hmem x (List.mem_cons_of_mem _ hx))
          (by simp at hfl ⊢; omega)]
      have : (⟨k.data⟩ : String) = k := by
        cases k
        rfl
      rw [this]
      rfl

theorem intChars_head (i : Int) :
    ∃ c cs, intChars i = c :: cs ∧ isWsChar c = false ∧ c ≠ 'n' ∧ c ≠ 't' ∧
      c ≠ 'f' ∧ c ≠ '"' ∧ c ≠ '[' ∧ c ≠ '\x7b' ∧ (c = '-' ∨ c.isDigit = true) := by
  by_cases hneg : i < 0
  · refine ⟨'-', natChars i.natAbs, ?_, by decide, by decide, by decide, by decide,
      by decide, by decide, by decide, Or.inl rfl⟩
    simp [intChars, hneg]
  · obtain ⟨d, tail, heq, hd10⟩ := natChars_cons i.natAbs
    obtain ⟨g1, g2, g3, g4, g5, g6, g7, g8, g9, g10, g11, g12, g13, g14⟩ :=
      digitChar_facts d hd10
    refine ⟨digitChar d, tail, ?_, g3, g8, g9, g10, g11, g12, g13, Or.inr g1⟩
    simp [intChars, hneg, heq]

theorem parseVal_ser : ∀ (d : Nat) (v : Json) (rest : List Char),
    Json.depth v ≤ d → headSafeB rest = true →
    parseVal d (Json.ser v ++ rest) = some (v, rest) := by
  intro d
  induction d with
  | zero =>
    intro v rest hdep _
    have := depth_pos v
    omega
  | succ d ih =>
    intro v rest hdep hsafe
    cases v with
    | null =>
      rw [Json.ser, parseVal]
      simp [skipWs, expectLit, isWsChar]
    | bool b =>
      cases b <;> rw [Json.ser, parseVal] <;> simp [skipWs, expectLit, isWsChar]
    | str s =>
      rw [Json.ser,
        show ('"' :: (escapeList s.data ++ ['"'])) ++ rest
          = '"' :: (escapeList s.data ++ '"' :: rest) from by simp,
        parseVal, skipWs_of_head (by decide)]
      simp only [if_neg (by decide : ¬('"' : Char) = 'n'),
        if_neg (by decide : ¬('"' : Char) = 't'),
        if_neg (by decide : ¬('"' : Char) = 'f'), if_pos rfl]
      rw [parseStrBody_escape]
      have : (⟨s.data⟩ : String) = s := by
        cases s
        rfl
      simp [this]
    | num i =>
      obtain ⟨c, cs, hser, hws, hn1, hn2, hn3, hn4, hn5, hn6, hdig⟩ := intChars_head i
      have harr : Json.ser (.num i) ++ rest = c :: (cs ++ rest) := by
        rw [Json.ser, hser]
        simp
      have hback : c :: (cs ++ rest) = intChars i ++ rest := by
        rw [hser]
        simp
      rw [harr, parseVal, skipWs_of_head hws]
      simp only [if_neg hn1, if_neg hn2, if_neg hn3, if_neg hn4, if_neg hn5, if_neg hn6]
      have hcond : (c = '-' || c.isDigit) = true := by
        rcases hdig with h | h
        · simp [h]
        · simp [h]
      simp only [hcond, if_pos]
      rw [hback, parseNum_intChars i rest hsafe]
      rfl
    | arr es =>
      have hdl : ∀ e ∈ es, Json.depth e ≤ d := by
        intro e he
        have h1 := depth_le_depthList he
        rw [Json.depth] at hdep
        omega
      have harr : Json.ser (.arr es) ++ rest = '[' :: (serElems es ++ rest) := by
        rw [Json.ser]
        simp
      rw [harr, parseVal, skipWs_of_head (by decide)]
      simp only [if_neg (by decide : ¬('[' : Char) = 'n'),
        if_neg (by decide : ¬('[' : Char) = 't'),
        if_neg (by decide : ¬('[' : Char) = 'f'),
        if_neg (by decide : ¬('[' : Char) = '"'), if_pos rfl]
      have hfl : es.length + 1 ≤ (serElems es ++ rest).length + 1 := by
        have := serElems_length es
        simp only [List.length_append]
        omega
      rw [parseElemsAux_ser d ih es ((serElems es ++ rest).length + 1) rest hdl hfl]
      rfl
    | obj fs =>
      have hdl : ∀ kv ∈ fs, Json.depth kv.2 ≤ d := by
        intro kv hkv
        have h1 := depth_le_depthFields hkv
        rw [Json.depth] at hdep
        omega
      have harr : Json.ser (.obj fs) ++ rest = '\x7b' :: (serFields fs ++ rest) := by
        rw [Json.ser]
        simp
      rw [harr, parseVal, skipWs_of_head (by decide)]
      simp only [if_neg (by decide : ¬('\x7b' : Char) = 'n'),
        if_neg (by decide : ¬('\x7b' : Char) = 't'),
        if_neg (by decide : ¬('\x7b' : Char) = 'f'),
        if_neg (by decide : ¬('\x7b' : Char) = '"'),
        if_neg (by decide : ¬('\x7b' : Char) = '['), if_pos rfl]
      have hfl : fs.length + 1 ≤ (serFields fs ++ rest).length + 1 := by
        have := serFields_length fs
        simp only [List.length_append]
        omega
      rw [parseFieldsAux_ser d ih fs ((serFields fs ++ rest).length + 1) rest hdl hfl]
      rfl

theorem depthList_le_serElems (es : List Json)
    (hm : ∀ e ∈ es, Json.depth e ≤ (Json.ser e).length) :
    depthList es ≤ (serElems es).length ∧ depthList es ≤ (serElemsNext es).length := by
  induction es with
  | nil =>
    rw [depthList]
    simp [serElems, serElemsNext]
  | cons e es ih =>
    have hL : 1 ≤ (Json.ser e).length := by
      obtain ⟨c, cs, h, -⟩ := ser_head e
      simp [h]
    have hN := serElemsNext_length es
    have ihe := ih (fun x hx => hm x (List.mem_cons_of_mem _ hx))
    have hme := hm e (by simp)
    constructor
    · rw [depthList, serElems]
      simp only [List.length_append, max_le_iff]
      omega
    · rw [depthList, serElemsNext]
      simp only [List.length_cons, List.length_append, max_le_iff]
      omega

theorem depthFields_le_serFields (fs : List (String × Json))
    (hm : ∀ kv ∈ fs, Json.depth kv.2 ≤ (Json.ser kv.2).length) :
    depthFields fs ≤ (serFields fs).length ∧
      depthFields fs ≤ (serFieldsNext fs).length := by
  induction fs with
  | nil =>
    rw [depthFields]
    simp [serFields, serFieldsNext]
  | cons kv fs ih =>
    obtain ⟨k, v⟩ := kv
    have hN := serFieldsNext_length fs
    have ihe := ih (fun x hx => hm x (List.mem_cons_of_mem _ hx))
    have hme : Json.depth v ≤ (Json.ser v).length := hm (k, v) (by simp)
    constructor
    · rw [depthFields, serFields]
      simp only [List.length_cons, List.length_append, max_le_iff]
      omega
    · rw [depthFields, serFieldsNext]
      simp only [List.length_cons, List.length_append, max_le_iff]
      omega

theorem depth_le_serLen : ∀ v : Json, Json.depth v ≤ (Json.ser v).length := by
  intro v
  induction v using Json.inductionOn with
  | hnull => decide
  | hbool b => cases b <;> decide
  | hnum n =>
    obtain ⟨c, cs, h, -⟩ := intChars_head n
    rw [Json.depth, Json.ser, h]
    simp
  | hstr s =>
    rw [Json.depth, Json.ser]
    simp
  | harr es ih =>
    have := (depthList_le_serElems es ih).1
    rw [Json.depth, Json.ser]
    simp only [List.length_cons]
    omega
  | hobj fs ih =>
    have := (depthFields_le_serFields fs ih).1
    rw [Json.depth, Json.ser]
    simp only [List.length_cons]
    omega

/-- The JSON model is faithful on write-then-read: parsing a serialized value
returns exactly that value (JSON.parse of JSON.stringify). -/
theorem jsonParse_stringify (v : Json) : jsonParse (jsonStringify v) = some v := by
  have hd : Json.depth v ≤ (Json.ser v).length + 1 :=
    le_trans (depth_le_serLen v) (by omega)
  have hp : parseVal ((Json.ser v).length + 1) (Json.ser v ++ []) = some (v, []) :=
    parseVal_ser _ v [] hd rfl
  rw [List.append_nil] at hp
  unfold jsonParse jsonStringify
  rw [show (⟨Json.ser v⟩ : String).data = Json.ser v from rfl, hp]
  rfl

/-! ### JavaScript value semantics

Truthiness, property access and string coercion as JavaScript applies them to
JSON.parse results.  String coercion of numbers covers the integral values the
embedded code manipulates. -/

/-- JavaScript truthiness of a JSON value. -/
def jsTruthy : Json → Bool
  | .null => false
  | .bool b => b
  | .num n => n != 0
  | .str s => s != ""
  | .arr _ => true
  | .obj _ => true

/-- Property access `v.k` on a JSON.parse result: defined only on objects,
`undefined` (none) otherwise. -/
def jGet (v : Json) (k : String) : Option Json :=
  match v with
  | .obj fs => (fs.find? (fun kv => kv.1 = k)).map (·.2)
  | _ => none

mutual

/-- JavaScript string coercion of a JSON value (String(v) / template literal). -/
def jsToString : Json → String
  | .null => "null"
  | .bool true => "true"
  | .bool false => "false"
  | .num n => ⟨intChars n⟩
  | .str s => s
  | .arr es => jsToStringElems es
  | .obj _ => "[object Object]"

def jsToStringElems : List Json → String
  | [] => ""
  | [e] => jsToString e
  | e :: es => jsToString e ++ "," ++ jsToStringElems es

end

/-- Object spread followed by a property write: `\x7b...fs, k: v\x7d`.  An existing
key keeps its position but takes the new value; a fresh key is appended. -/
def objSet (fs : List (String × Json)) (k : String) (v : Json) : List (String × Json) :=
  if fs.any (fun kv => kv.1 = k) then
    fs.map (fun kv => if kv.1 = k then (k, v) else kv)
  else fs ++ [(k, v)]

/-- Substring search: does `needle` occur contiguously in the haystack? -/
def subListSearch (needle : List Char) : List Char → Bool
  | [] => needle.isEmpty
  | l@(_ :: rest) => needle.isPrefixOf l || subListSearch needle rest

/-- JavaScript `a.includes(b)` on strings. -/
def strIncludes (a b : String) : Bool := subListSearch b.data a.data

/-- JavaScript `s.trim()` (whitespace at both ends removed). -/
def strTrim (s : String) : String := ⟨(skipWs ((skipWs s.data).reverse)).reverse⟩

/-- JavaScript `s.startsWith(p)`. -/
def strStartsWith (s p : String) : Bool := p.data.isPrefixOf s.data

/-- JavaScript `s.slice(n)` for a non-negative index. -/
def strDrop (s : String) (n : Nat) : String := ⟨s.data.drop n⟩

/-- JavaScript `s.substring(0, n)`. -/
def strTake (s : String) (n : Nat) : String := ⟨s.data.take n⟩

/-- Split a character list at every newline (JavaScript `s.split("\n")`). -/
def listSplitNl : List Char → List (List Char)
  | [] => [[]]
  | c :: cs =>
    if c = '\n' then [] :: listSplitNl cs
    else
      match listSplitNl cs with
      | h :: t => (c :: h) :: t
      | [] => [[c]]

/-- JavaScript `s.split("\n")`. -/
def strSplitNl (s : String) : List String := (listSplitNl s.data).map String.mk

/-! ### TokenStorage (src/chrome/content/services/auth/tokenStorage.js)

The nsILoginManager store is modelled as a list of login records; all records
of this add-on share the constant HOSTNAME, so a record is identified by its
realm.  `storeToken`'s username field holds the JSON-serialized metadata. -/

def REALM_GITHUB_COPILOT : String := "GitHub Copilot OAuth Token"
def REALM_GITHUB_COPILOT_SESSION : String := "GitHub Copilot Session Token"

structure LoginRecord where
  httpRealm : String
  username : String
  password : String
deriving Repr

/-- `loginManager.findLogins(HOSTNAME, null, realm)`. -/
def findLogins (store : List LoginRecord) (realm : String) : List LoginRecord :=
  store.filter (fun l => l.httpRealm = realm)

/-- `removeToken(realm)`: removes every login found for the realm. -/
def removeToken (store : List LoginRecord) (realm : String) : List LoginRecord :=
  store.filter (fun l => ¬l.httpRealm = realm)

/-- `storeToken(realm, token, metadata)` at time `now`: removes any existing
record for the realm, then adds a login whose username is the JSON of the
metadata spread together with `storedAt: Date.now()`. -/
def storeToken (store : List LoginRecord) (realm : String) (token : String)
    (metadata : List (String × Json)) (now : Int) : List LoginRecord :=
  removeToken store realm ++
    [⟨realm, jsonStringify (.obj (objSet metadata "storedAt" (.num now))), token⟩]

/-- `getToken(realm)`: first login for the realm, with its username parsed as
JSON metadata (an unparsable username degrades to the empty object). -/
def getToken (store : List LoginRecord) (realm : String) : Option (String × Json) :=
  match findLogins store realm with
  | [] => none
  | login :: _ =>
    some (login.password, (jsonParse login.username).getD (.obj []))

/-- `hasValidToken(realm, maxAge)` at time `now`.  The age check runs only when
`maxAge` and `metadata.storedAt` are both truthy (and `storedAt` numeric, the
only shape this code ever writes); the expiry check only when
`metadata.expiresAt` is truthy. -/
def hasValidToken (store : List LoginRecord) (realm : String)
    (maxAge : Option Int) (now : Int) : Bool :=
  match getToken store realm with
  | none => false
  | some (_, meta) =>
    let ageFail :=
      match maxAge, jGet meta "storedAt" with
      | some ma, some (.num s) => ma != 0 && s != 0 && decide (now - s > ma)
      | _, _ => false
    let expFail :=
      match jGet meta "expiresAt" with
      | some (.num e) => e != 0 && decide (now > e)
      | _ => false
    !ageFail && !expFail

/-! ### GitHubDeviceFlow (device-flow OAuth source file)

`getSessionToken` is embedded as a pure function of the login store, the
current time and the outcome of the `getCopilotToken` exchange (the network
call, supplied by the environment).  `pollForToken`'s loop body (the inner
`poll` closure) is embedded as `pollTick` over the values it captured when the
loop started and the JSON body of one token-endpoint response. -/

/-- Result of `getCopilotToken`: a session token with its absolute expiry
(`expires_at * 1000`). -/
structure CopilotToken where
  token : String
  expiresAt : Int
deriving Repr

/-- `disconnect()`: removes both credential records. -/
def disconnect (store : List LoginRecord) : List LoginRecord :=
  removeToken (removeToken store REALM_GITHUB_COPILOT) REALM_GITHUB_COPILOT_SESSION

/-- Outcome of one `getSessionToken()` call. -/
structure SessionResult where
  refreshed : Bool
  exchanged : Bool
  store : List LoginRecord
  result : Except String String
deriving Repr

/-- The 5-minute proactive-refresh buffer. -/
def bufferTime : Int := 5 * 60 * 1000

/-- The refresh branch of `getSessionToken` (everything after the buffer
check fails). -/
def refreshSessionToken (store : List LoginRecord) (now : Int)
    (exchange : Except String CopilotToken) : SessionResult :=
  match getToken store REALM_GITHUB_COPILOT with
  | none =>
    ⟨true, false, store, .error "Not authenticated. Please connect to GitHub Copilot."⟩
  | some (authToken, _) =>
    if authToken = "" then
      ⟨true, false, store, .error "Not authenticated. Please connect to GitHub Copilot."⟩
    else
      match exchange with
      | .ok ct =>
        ⟨true, true,
          storeToken store REALM_GITHUB_COPILOT_SESSION ct.token
            [("expiresAt", .num ct.expiresAt)] now,
          .ok ct.token⟩
      | .error e =>
        if strIncludes e "401" || strIncludes e "invalid" || strIncludes e "expired" then
          ⟨true, true, disconnect store,
            .error "GitHub session expired. Please reconnect to GitHub Copilot."⟩
        else
          ⟨true, true, store, .error e⟩

/-- `getSessionToken()`: returns the stored session token when its
`metadata.expiresAt` is more than `bufferTime` past `now`, otherwise refreshes
through the access token. -/
def getSessionToken (store : List LoginRecord) (now : Int)
    (exchange : Except String CopilotToken) : SessionResult :=
  match getToken store REALM_GITHUB_COPILOT_SESSION with
  | some (tok, meta) =>
    let fresh :=
      match jGet meta "expiresAt" with
      | some (.num e) => decide (e > now + bufferTime)
      | _ => false
    if fresh then ⟨false, false, store, .ok tok⟩
    else refreshSessionToken store now exchange
  | none => refreshSessionToken store now exchange

/-- The values `pollForToken` captures from `currentFlow` when the loop
starts; later mutation of `currentFlow` cannot be observed through them. -/
structure DeviceFlowSession where
  deviceCode : String
  interval : Int
  expiresIn : Int
  startTime : Int
deriving Repr

/-- `cancelFlow()`: unconditionally discards the in-memory session. -/
def cancelFlow (_currentFlow : Option DeviceFlowSession) : Option DeviceFlowSession :=
  none

/-- What one tick of the poll loop decides to do next. -/
inductive PollOutcome where
  | resolve (token : String)
  | reject (msg : String)
  | scheduleNext (delayMs : Int)
deriving Repr, DecidableEq

/-- Observable effects of one tick of the `poll` closure. -/
structure PollStep where
  requested : Bool
  clearsFlow : Bool
  statusUpdates : List String
  outcome : PollOutcome
deriving Repr, DecidableEq

/-- One tick of the `poll` closure inside `pollForToken`, given the captured
expiry, the current time and the JSON body of the token-endpoint response.
The closure reads only values captured at loop start: it never consults
`currentFlow`, so a `cancelFlow()` between ticks does not alter it. -/
def pollTick (pollInterval : Int) (expiresAt : Int) (now : Int) (resp : Json) :
    PollStep :=
  if now > expiresAt then
    ⟨false, true, [], .reject "Device code expired. Please try again."⟩
  else
    let tokenBranch : PollStep :=
      match jGet resp "access_token" with
      | some t =>
        if jsTruthy t then ⟨true, true, ["success"], .resolve (jsToString t)⟩
        else ⟨true, false, [], .reject "Unexpected response from GitHub"⟩
      | none => ⟨true, false, [], .reject "Unexpected response from GitHub"⟩
    let defaultBranch : Json → PollStep := fun e =>
      ⟨true, false, [],
        .reject (match jGet resp "error_description" with
          | some d => if jsTruthy d then jsToString d else jsToString e
          | none => jsToString e)⟩
    match jGet resp "error" with
    | some e =>
      if jsTruthy e then
        match e with
        | .str "authorization_pending" =>
          ⟨true, false, ["waiting"], .scheduleNext pollInterval⟩
        | .str "slow_down" =>
          ⟨true, false, [], .scheduleNext (pollInterval + 5000)⟩
        | .str "expired_token" =>
          ⟨true, true, [], .reject "Device code expired. Please try again."⟩
        | .str "access_denied" =>
          ⟨true, true, [], .reject "Access denied by user."⟩
        | _ => defaultBranch e
      else tokenBranch
    | none => tokenBranch

/-! ### CopilotClient (src/chrome/content/services/ai/copilotClient.js)

The chat client is embedded up to the wire: every `fetch` outcome is a
parameter.  `this.FALLBACK_MODELS` is an object field, so the functions that
read it take it as an explicit parameter; `FALLBACK_MODELS` is the constant
the shipped object carries. -/

def FALLBACK_MODELS : List String :=
  ["claude-sonnet-4.5", "gpt-5", "gpt-5-mini", "gpt-4.1", "gemini-2.5-pro"]

def MODELS_CACHE_TTL : Int := 5 * 60 * 1000

/-- `pickFallbackModel(available)`: first ranked candidate present in the
available list, else the first available entry, else null. -/
def pickFallbackModel (fallbackModels available : List String) : Option String :=
  match fallbackModels.find? (fun c => available.contains c) with
  | some c => some c
  | none => available.head?

/-- `resolveModel(requestedModel)` against the available catalog (the awaited
`getAvailableModels()` result).  The empty string stands for a missing
(falsy) requested model. -/
def resolveModel (fallbackModels available : List String)
    (requestedModel : String) : String :=
  if available.isEmpty then
    (if requestedModel ≠ "" then requestedModel else fallbackModels.headD "")
  else if requestedModel ≠ "" ∧ available.contains requestedModel then
    requestedModel
  else
    match pickFallbackModel fallbackModels available with
    | some fb => fb
    | none => if requestedModel ≠ "" then requestedModel else available.headD ""

/-- Lower-casing as `toLowerCase()` applies to the ASCII error bodies. -/
def strToLower (s : String) : String := ⟨s.data.map Char.toLower⟩

/-- `shouldRetryWithFallback(status, text)`. -/
def shouldRetryWithFallback (status : Int) (text : String) : Bool :=
  if status ≠ 400 ∧ status ≠ 404 ∧ status ≠ 422 then false
  else
    let lowered := strToLower text
    strIncludes lowered "model" || strIncludes lowered "invalid" ||
      strIncludes lowered "unsupported"

/-- `findFallbackModel(currentModel)` against the available catalog. -/
def findFallbackModel (fallbackModels available : List String)
    (currentModel : String) : Option String :=
  let fromAvailable : Option String :=
    if available.isEmpty then none
    else
      match pickFallbackModel fallbackModels available with
      | some fb => if fb ≠ currentModel then some fb else none
      | none => none
  match fromAvailable with
  | some fb => some fb
  | none => fallbackModels.find? (fun c => c ≠ currentModel)

/-- `formatApiError(status, text)`. -/
def formatApiError (status : Int) (text : String) : String :=
  let message := if text ≠ "" then text else "Unknown error"
  if status = 401 then
    "Copilot API error (401): Authentication failed. Please reconnect to GitHub Copilot."
  else if status = 403 then
    "Copilot API error (403): Access denied. Please ensure you have an active GitHub Copilot subscription."
  else
    let trimmedText := strTrim text
    let message2 :=
      if strStartsWith trimmedText "\x7b" || strStartsWith trimmedText "[" then
        match jsonParse trimmedText with
        | some j =>
          let fromError : Option String :=
            match jGet j "error" with
            | some e =>
              match jGet e "message" with
              | some m => if jsTruthy m then some (jsToString m) else none
              | none => none
            | none => none
          let fromMessage : Option String :=
            match jGet j "message" with
            | some m => if jsTruthy m then some (jsToString m) else none
            | none => none
          let fromErrorField : Option String :=
            match jGet j "error" with
            | some e =>
              if jsTruthy e then
                some (match e with
                  | .str s => s
                  | _ => jsonStringify e)
              else none
            | none => none
          match fromError with
          | some m => m
          | none =>
            match fromMessage with
            | some m => m
            | none =>
              match fromErrorField with
              | some m => m
              | none => message
        | none =>
          -- JSON.parse threw: fall into the catch block, which truncates
          if message.data.length > 200 then strTake message 200 ++ "..." else message
      else message
    "Copilot API error (" ++ toString status ++ "): " ++ message2

/-- The entry normalizer inside `extractModelIds`: at most one pushed id. -/
def extractEntry (entry : Json) : List Json :=
  if ¬jsTruthy entry then []
  else
    match entry with
    | .str s => [.str s]
    | _ =>
      match jGet entry "id" with
      | some v =>
        if jsTruthy v then [v]
        else
          match jGet entry "model" with
          | some m =>
            if jsTruthy m then [m]
            else
              match jGet entry "name" with
              | some n => if jsTruthy n then [n] else []
              | none => []
          | none =>
            match jGet entry "name" with
            | some n => if jsTruthy n then [n] else []
            | none => []
      | none =>
        match jGet entry "model" with
        | some m =>
          if jsTruthy m then [m]
          else
            match jGet entry "name" with
            | some n => if jsTruthy n then [n] else []
            | none => []
        | none =>
          match jGet entry "name" with
          | some n => if jsTruthy n then [n] else []
          | none => []

/-- Which list of entries `extractModelIds` walks for a given payload shape. -/
def catalogEntries (payload : Json) : List Json :=
  match payload with
  | .arr es => es
  | _ =>
    match jGet payload "data" with
    | some (.arr es) => es
    | _ =>
      match jGet payload "models" with
      | some (.arr es) => es
      | _ => []

/-- `extractModelIds(payload)`: ids pushed by the walker, with falsy ids
filtered out (`filter(Boolean)`); string coercion renders each id. -/
def extractModelIds (payload : Json) : List String :=
  (((catalogEntries payload).map extractEntry).join.filter jsTruthy).map jsToString

/-- Outcome of fetching one models endpoint. -/
inductive FetchOutcome where
  | netError
  | httpError (status : Int)
  | body (text : String)
deriving Repr

/-- The `for (const url of this.MODELS_URLS)` loop: first endpoint that yields
a non-empty id list wins; every failure mode just tries the next one. -/
def tryModelUrls : List FetchOutcome → List String
  | [] => []
  | r :: rs =>
    match r with
    | .netError => tryModelUrls rs
    | .httpError _ => tryModelUrls rs
    | .body text =>
      if ¬(strStartsWith (strTrim text) "\x7b" || strStartsWith (strTrim text) "[") then
        tryModelUrls rs
      else
        match jsonParse text with
        | some data =>
          let models := extractModelIds data
          if models.isEmpty then tryModelUrls rs else models
        | none => tryModelUrls rs

/-- The fetch-or-fallback step of `getAvailableModels`: the models fetched
from the endpoints (empty when the session token itself failed), replaced by
the hardcoded ranked list when empty. -/
def freshModels (tokenOk : Bool) (responses : List FetchOutcome) : List String :=
  let fetched := if tokenOk then tryModelUrls responses else []
  if fetched.isEmpty then FALLBACK_MODELS else fetched

/-- `getAvailableModels()`, as a function of the session-token outcome, the
per-endpoint fetch outcomes and the cache cells; returns the model list and
the updated cache. -/
def getAvailableModels (tokenOk : Bool) (responses : List FetchOutcome)
    (cachedModels : Option (List String)) (cachedModelsAt : Int) (now : Int) :
    List String × Option (List String) × Int :=
  match cachedModels with
  | some ms =>
    if now - cachedModelsAt < MODELS_CACHE_TTL then (ms, some ms, cachedModelsAt)
    else
      let models := freshModels tokenOk responses
      (models, some models, now)
  | none =>
    let models := freshModels tokenOk responses
    (models, some models, now)

/-- One HTTP response to a chat-completion request. -/
structure HttpResp where
  ok : Bool
  status : Int
  bodyText : String
deriving Repr

/-- The response-handling control flow of `chat` (steps 1-5): which models get
requested, and either the response handed to decoding or the thrown error.
`available` is the catalog both `resolveModel` and `findFallbackModel`
observe; `resp1`/`resp2` are the outcomes of the first and (if issued) retry
request. -/
def chat (available : List String) (requestedModel : String)
    (resp1 resp2 : HttpResp) : List String × Except String HttpResp :=
  let resolvedModel := resolveModel FALLBACK_MODELS available requestedModel
  if resp1.ok then ([resolvedModel], .ok resp1)
  else
    let text := resp1.bodyText
    let message := formatApiError resp1.status text
    if shouldRetryWithFallback resp1.status text then
      match findFallbackModel FALLBACK_MODELS available resolvedModel with
      | some fallbackModel =>
        if fallbackModel ≠ resolvedModel then
          if resp2.ok then ([resolvedModel, fallbackModel], .ok resp2)
          else
            ([resolvedModel, fallbackModel],
              .error (formatApiError resp2.status resp2.bodyText))
        else ([resolvedModel], .error message)
      | none => ([resolvedModel], .error message)
    else ([resolvedModel], .error message)

/-! ### Streaming decode (`handleStreamingResponse`) -/

/-- Decoder state: carry-over buffer, accumulated content, captured stream
error, and the `(delta, accumulatedSoFar)` arguments of every `onChunk`
call so far. -/
structure StreamState where
  buffer : String
  fullContent : String
  errorMessage : Option Json
  chunks : List (String × String)
deriving Repr

def initialStreamState : StreamState := ⟨"", "", none, []⟩

/-- `json.choices?.[0]?.delta?.content`. -/
def deltaContent (json : Json) : Option Json :=
  match jGet json "choices" with
  | some (.arr (c0 :: _)) =>
    match jGet c0 "delta" with
    | some d => jGet d "content"
    | none => none
  | _ => none

/-- Handling of one parsed frame body (after the error check): accumulate a
truthy content delta and fire `onChunk(content, fullContent)`. -/
def contentStep (st : StreamState) (json : Json) : StreamState :=
  match deltaContent json with
  | some c =>
    if jsTruthy c then
      let delta := jsToString c
      let full := st.fullContent ++ delta
      { st with fullContent := full, chunks := st.chunks ++ [(delta, full)] }
    else st
  | none => st

/-- Processing of one complete line of the event stream. -/
def processLine (st : StreamState) (line : String) : StreamState :=
  if strStartsWith line "data: " then
    let data := strTrim (strDrop line 6)
    if data = "[DONE]" then st
    else if data = "" then st
    else
      match jsonParse data with
      | some json =>
        (match jGet json "error" with
        | some e =>
          if jsTruthy e then
            let em :=
              match jGet e "message" with
              | some m => if jsTruthy m then m else e
              | none => e
            { st with errorMessage := some em }
          else contentStep st json
        | none => contentStep st json)
      | none => st
  else st

/-- Processing of one decoded reader chunk: split on newlines, keep the final
incomplete line as the new buffer, process the complete lines in order. -/
def processChunk (st : StreamState) (chunk : String) : StreamState :=
  let buf := st.buffer ++ chunk
  let parts := strSplitNl buf
  let newBuffer := parts.getLast?.getD ""
  parts.dropLast.foldl processLine { st with buffer := newBuffer }

/-- The read loop of `handleStreamingResponse` over the decoded chunks the
reader delivers. -/
def runStream (chunkList : List String) : StreamState :=
  chunkList.foldl processChunk initialStreamState

/-- Stream end: raise the captured error only when no content accumulated,
else return the accumulated content. -/
def finishStream (st : StreamState) : Except String String :=
  match st.errorMessage with
  | some e => if st.fullContent = "" then .error (jsToString e) else .ok st.fullContent
  | none => .ok st.fullContent

/-- `handleStreamingResponse` end to end on the delivered chunks. -/
def handleStreamingResponse (chunkList : List String) : Except String String :=
  finishStream (runStream chunkList)

/-! ### Vault lemmas -/

theorem filter_removeToken_self (realm : String) : ∀ l : List LoginRecord,
    (l.filter fun r => ¬r.httpRealm = realm).filter (fun r => r.httpRealm = realm)
      = [] := by
  intro l
  induction l with
  | nil => rfl
  | cons a t ih =>
    by_cases h : a.httpRealm = realm <;> simp [h, ih, List.filter_cons]

theorem findLogins_removeToken_self (store : List LoginRecord) (realm : String) :
    findLogins (removeToken store realm) realm = [] := by
  unfold findLogins removeToken
  exact filter_removeToken_self realm store

theorem findLogins_removeToken_other (store : List LoginRecord) {r1 r2 : String}
    (h : r2 ≠ r1) : findLogins (removeToken store r1) r2 = findLogins store r2 := by
  unfold findLogins removeToken
  rw [List.filter_filter]
  apply List.filter_congr
  intro a _
  by_cases hb : a.httpRealm = r2 <;> simp [hb, h]

theorem findLogins_storeToken_self (store : List LoginRecord) (realm token : String)
    (metadata : List (String × Json)) (now : Int) :
    findLogins (storeToken store realm token metadata now) realm
      = [⟨realm, jsonStringify (.obj (objSet metadata "storedAt" (.num now))), token⟩] := by
  unfold storeToken
  show findLogins (removeToken store realm ++ [_]) realm = _
  unfold findLogins removeToken
  rw [List.filter_append, filter_removeToken_self realm store]
  simp

theorem getToken_storeToken (store : List LoginRecord) (realm token : String)
    (metadata : List (String × Json)) (now : Int) :
    getToken (storeToken store realm token metadata now) realm
      = some (token, .obj (objSet metadata "storedAt" (.num now))) := by
  unfold getToken
  rw [findLogins_storeToken_self]
  simp [jsonParse_stringify]

theorem getToken_disconnect (store : List LoginRecord) :
    getToken (disconnect store) REALM_GITHUB_COPILOT = none ∧
      getToken (disconnect store) REALM_GITHUB_COPILOT_SESSION = none := by
  unfold disconnect getToken
  constructor
  · rw [findLogins_removeToken_other _
      (by decide : REALM_GITHUB_COPILOT ≠ REALM_GITHUB_COPILOT_SESSION),
      findLogins_removeToken_self]
  · rw [findLogins_removeToken_self]

/-! ### Claim theorems -/

/-- C6: for every realm, secret and metadata map, `store` then `load` returns
the just-stored secret and metadata (the metadata record as persisted, i.e.
the given map with `storedAt` set to the store time); a second `store` for the
same realm leaves exactly one retrievable record, the most recent one, because
`store` always deletes the realm's records before adding the new one. -/
theorem C6_store_then_load (store : List LoginRecord) (realm token token2 : String)
    (m1 m2 : List (String × Json)) (t1 t2 : Int) :
    getToken (storeToken store realm token m1 t1) realm
        = some (token, .obj (objSet m1 "storedAt" (.num t1))) ∧
      (findLogins (storeToken store realm token m1 t1) realm).length = 1 ∧
      getToken (storeToken (storeToken store realm token m1 t1) realm token2 m2 t2)
          realm
        = some (token2, .obj (objSet m2 "storedAt" (.num t2))) ∧
      (findLogins (storeToken (storeToken store realm token m1 t1) realm token2 m2 t2)
          realm).length = 1 := by
  refine ⟨getToken_storeToken _ _ _ _ _, ?_, getToken_storeToken _ _ _ _ _, ?_⟩
  · rw [findLogins_storeToken_self]
    rfl
  · rw [findLogins_storeToken_self]
    rfl

/-- C10: when a stored record's metadata carries no `storedAt` key (as happens
when the persisted metadata string is not valid JSON and degrades to the empty
object on load), `hasValidToken` skips the maximum-age check entirely: its
result does not depend on `maxAge` at all, and it returns true whenever
`metadata.expiresAt` is absent or still in the future. -/
theorem C10_hasValidToken_no_storedAt (store : List LoginRecord) (realm : String)
    (maxAge maxAge2 : Option Int) (now : Int) (tok : String) (meta : Json)
    (hget : getToken store realm = some (tok, meta))
    (hstored : jGet meta "storedAt" = none) :
    hasValidToken store realm maxAge now = hasValidToken store realm maxAge2 now ∧
      (jGet meta "expiresAt" = none → hasValidToken store realm maxAge now = true) ∧
      (∀ e : Int, jGet meta "expiresAt" = some (.num e) → now < e →
        hasValidToken store realm maxAge now = true) ∧
      (∀ login rest, findLogins store realm = login :: rest →
        jsonParse login.username = none → meta = .obj []) := by
  refine ⟨?_, ?_, ?_, ?_⟩
  · unfold hasValidToken
    rw [hget]
    simp only [hstored]
    all_goals cases maxAge <;> cases maxAge2 <;> rfl
  · intro hexp
    unfold hasValidToken
    rw [hget]
    simp only [hstored, hexp]
    cases maxAge <;> rfl
  · intro e hexp hfut
    unfold hasValidToken
    rw [hget]
    simp only [hstored, hexp]
    have h1 : decide (now > e) = false := by
      simp only [decide_eq_false_iff_not]
      omega
    cases maxAge <;> simp [h1]
  · intro login rest hfind hparse
    unfold getToken at hget
    rw [hfind] at hget
    simp [hparse] at hget
    exact hget.2.symm

/-- C10 witness: a record whose persisted metadata is not JSON loads as the
empty map; `hasValidToken` then ignores `maxAge` and returns true. -/
theorem C10_hasValidToken_no_storedAt_witness :
    hasValidToken [⟨"r", "notjson", "t"⟩] "r" (some 10) 5
        = hasValidToken [⟨"r", "notjson", "t"⟩] "r" none 5 ∧
      hasValidToken [⟨"r", "notjson", "t"⟩] "r" (some 10) 5 = true := by
  have h := C10_hasValidToken_no_storedAt [⟨"r", "notjson", "t"⟩] "r" (some 10) none 5
    "t" (.obj []) (by rfl) (by rfl)
  exact ⟨h.1, h.2.1 (by rfl)⟩

/-- C5: `resolveModel(requested)` returns `requested` when it is in the
catalog; otherwise the first ranked fallback present in the catalog, else the
first catalog entry, else (empty catalog) `requested` itself. -/
theorem C5_resolveModel (fallbackModels catalog : List String) (requested : String)
    (hreq : requested ≠ "") :
    (catalog.contains requested = true →
      resolveModel fallbackModels catalog requested = requested) ∧
    (catalog.contains requested = false →
      (∀ fb, fallbackModels.find? (fun c => catalog.contains c) = some fb →
        resolveModel fallbackModels catalog requested = fb) ∧
      (catalog ≠ [] → fallbackModels.find? (fun c => catalog.contains c) = none →
        resolveModel fallbackModels catalog requested = catalog.headD "")) ∧
    (catalog = [] → resolveModel fallbackModels catalog requested = requested) := by
  refine ⟨?_, ?_, ?_⟩
  · intro hmem
    have hmem' : requested ∈ catalog := by simpa using hmem
    have hne : catalog.isEmpty = false := by
      cases catalog
      · simp at hmem'
      · rfl
    unfold resolveModel
    simp [hne, hreq, hmem']
  · intro hmem
    have hmem' : requested ∉ catalog := by simpa using hmem
    constructor
    · intro fb hfb
      have hnil : catalog ≠ [] := by
        intro hc
        subst hc
        have := List.find?_some hfb
        simp at this
      have hne : catalog.isEmpty = false := by
        cases catalog
        · exact absurd rfl hnil
        · rfl
      unfold resolveModel pickFallbackModel
      rw [hfb]
      simp [hne, hreq, hmem']
    · intro hnil hfind
      have hne : catalog.isEmpty = false := by
        cases catalog
        · exact absurd rfl hnil
        · rfl
      obtain ⟨c0, cr, rfl⟩ : ∃ c0 cr, catalog = c0 :: cr := by
        cases catalog
        · exact absurd rfl hnil
        · exact ⟨_, _, rfl⟩
      unfold resolveModel pickFallbackModel
      rw [hfind]
      simp [hne, hreq, hmem']
  · intro hnil
    subst hnil
    unfold resolveModel
    simp [hreq]

/-- C5 witness, the spec's own example: an unknown model against catalog
`["a","b","c"]` with fallback ranking `["b","a"]` resolves to `"b"`. -/
theorem C5_resolveModel_witness :
    resolveModel ["b", "a"] ["a", "b", "c"] "gpt-9-fake" = "b" :=
  ((C5_resolveModel ["b", "a"] ["a", "b", "c"] "gpt-9-fake" (by decide)).2.1
    (by rfl)).1 "b" (by rfl)

/-- C7 (code bug in the source): `cancelFlow()` does discard the session, but
the `poll` closure never consults `currentFlow` - it reads only values
captured at loop start (`pollTick`'s parameters).  A tick scheduled before a
`cancelFlow()` therefore still issues the token request and still resolves
the pending promise: at expiry 1000, time 500 and a granted token the tick
performs the request and resolves "tok" (with a "success" status update),
contradicting "never resolved nor rejected and no further token request". -/
theorem C7_pollTick_ignores_cancel :
    cancelFlow (some ⟨"devcode", 5, 900, 0⟩) = none ∧
      pollTick 5000 1000 500 (.obj [("access_token", .str "tok")])
        = ⟨true, true, ["success"], .resolve "tok"⟩ := by
  constructor
  · rfl
  · rfl

/-- C1: `getSessionToken()` returns the stored session token unchanged, with
no refresh, exactly when the record's `metadata.expiresAt` lies more than the
5-minute buffer past now; when `expiresAt` is within the buffer or the record
is absent it takes the refresh path instead, and a successful exchange
persists the fresh token and returns it. -/
theorem C1_getSessionToken_buffer (store : List LoginRecord) (now : Int)
    (ex : Except String CopilotToken) :
    (∀ tok meta (e : Int),
      getToken store REALM_GITHUB_COPILOT_SESSION = some (tok, meta) →
      jGet meta "expiresAt" = some (.num e) → e > now + bufferTime →
      getSessionToken store now ex = ⟨false, false, store, .ok tok⟩) ∧
    (∀ tok meta (e : Int),
      getToken store REALM_GITHUB_COPILOT_SESSION = some (tok, meta) →
      jGet meta "expiresAt" = some (.num e) → e ≤ now + bufferTime →
      getSessionToken store now ex = refreshSessionToken store now ex) ∧
    (getToken store REALM_GITHUB_COPILOT_SESSION = none →
      getSessionToken store now ex = refreshSessionToken store now ex) ∧
    (∀ authTok authMeta ct,
      getToken store REALM_GITHUB_COPILOT = some (authTok, authMeta) →
      authTok ≠ "" → ex = .ok ct →
      refreshSessionToken store now ex
          = ⟨true, true,
              storeToken store REALM_GITHUB_COPILOT_SESSION ct.token
                [("expiresAt", .num ct.expiresAt)] now,
              .ok ct.token⟩ ∧
        getToken
            (storeToken store REALM_GITHUB_COPILOT_SESSION ct.token
              [("expiresAt", .num ct.expiresAt)] now)
            REALM_GITHUB_COPILOT_SESSION
          = some (ct.token,
              .obj [("expiresAt", .num ct.expiresAt), ("storedAt", .num now)])) := by
  refine ⟨?_, ?_, ?_, ?_⟩
  · intro tok meta e hget hexp hgt
    unfold getSessionToken
    rw [hget]
    simp only [hexp]
    have : decide (e > now + bufferTime) = true := by
      simp only [decide_eq_true_eq]
      omega
    simp [this]
  · intro tok meta e hget hexp hle
    unfold getSessionToken
    rw [hget]
    simp only [hexp]
    have : decide (e > now + bufferTime) = false := by
      simp only [decide_eq_false_iff_not]
      omega
    simp [this]
  · intro hget
    unfold getSessionToken
    rw [hget]
  · intro authTok authMeta ct hauth hne hex
    subst hex
    constructor
    · unfold refreshSessionToken
      rw [hauth]
      simp [hne]
    · rw [getToken_storeToken]
      rfl

/-- C1 witness: a session expiring 1000 seconds from now (beyond the buffer)
is returned as-is with no refresh; one expiring in 3 minutes takes the
refresh path (the spec's `now + 3 minutes` example); on refresh, a successful
exchange persists and returns the fresh token. -/
theorem C1_getSessionToken_buffer_witness :
    getSessionToken
        [⟨REALM_GITHUB_COPILOT_SESSION, "\x7b\"expiresAt\":1000000\x7d", "stok"⟩] 0
        (.error "x")
      = ⟨false, false,
          [⟨REALM_GITHUB_COPILOT_SESSION, "\x7b\"expiresAt\":1000000\x7d", "stok"⟩],
          .ok "stok"⟩ ∧
    getSessionToken
        [⟨REALM_GITHUB_COPILOT_SESSION, "\x7b\"expiresAt\":180000\x7d", "stok"⟩] 0
        (.error "x")
      = refreshSessionToken
          [⟨REALM_GITHUB_COPILOT_SESSION, "\x7b\"expiresAt\":180000\x7d", "stok"⟩] 0
          (.error "x") ∧
    refreshSessionToken [⟨REALM_GITHUB_COPILOT, "\x7b\x7d", "atok"⟩] 0
        (.ok ⟨"ntok", 7000000⟩)
      = ⟨true, true,
          storeToken [⟨REALM_GITHUB_COPILOT, "\x7b\x7d", "atok"⟩]
            REALM_GITHUB_COPILOT_SESSION "ntok" [("expiresAt", .num 7000000)] 0,
          .ok "ntok"⟩ := by
  refine ⟨?_, ?_, ?_⟩
  · exact (C1_getSessionToken_buffer _ 0 (.error "x")).1 "stok" _ 1000000 rfl rfl
      (by decide)
  · exact (C1_getSessionToken_buffer _ 0 (.error "x")).2.1 "stok" _ 180000 rfl rfl
      (by decide)
  · exact ((C1_getSessionToken_buffer [⟨REALM_GITHUB_COPILOT, "\x7b\x7d", "atok"⟩] 0
      (.ok ⟨"ntok", 7000000⟩)).2.2.2 "atok" (.obj []) ⟨"ntok", 7000000⟩ rfl
      (by decide) rfl).1

/-- C4 counterexample: with the access-token record absent but an (expired)
session record still stored, the refresh raises a failure WITHOUT deleting
the session record - the store is returned unchanged and the session record
is still retrievable, contradicting "both credential records are deleted". -/
theorem C4_counterexample :
    getSessionToken
        [⟨REALM_GITHUB_COPILOT_SESSION, "\x7b\"expiresAt\":1000\x7d", "stok"⟩] 0
        (.error "x")
      = ⟨true, false,
          [⟨REALM_GITHUB_COPILOT_SESSION, "\x7b\"expiresAt\":1000\x7d", "stok"⟩],
          .error "Not authenticated. Please connect to GitHub Copilot."⟩ ∧
    (getToken
        [⟨REALM_GITHUB_COPILOT_SESSION, "\x7b\"expiresAt\":1000\x7d", "stok"⟩]
        REALM_GITHUB_COPILOT_SESSION).isSome = true := by
  constructor
  · rfl
  · rfl

/-- C4 (amended): whenever `getSessionToken()` must refresh - if the
access-token record is absent (or its token empty), a not-authenticated
failure is raised with the store left unchanged (no deletion); if the record
is present and the exchange fails with an authentication-type error (message
containing "401", "invalid" or "expired"), both credential records are
deleted and a reauthentication failure is raised; any other exchange failure
is re-raised with the store unchanged; and no refresh failure ever returns a
token - a token is returned only from a successful fresh exchange. -/
theorem C4_refresh_failure (store : List LoginRecord) (now : Int)
    (ex : Except String CopilotToken) :
    (getToken store REALM_GITHUB_COPILOT = none →
      refreshSessionToken store now ex
        = ⟨true, false, store,
            .error "Not authenticated. Please connect to GitHub Copilot."⟩) ∧
    (∀ authTok authMeta e,
      getToken store REALM_GITHUB_COPILOT = some (authTok, authMeta) →
      authTok ≠ "" → ex = .error e →
      ((strIncludes e "401" || strIncludes e "invalid"
          || strIncludes e "expired") = true →
        refreshSessionToken store now ex
            = ⟨true, true, disconnect store,
                .error "GitHub session expired. Please reconnect to GitHub Copilot."⟩ ∧
          getToken (disconnect store) REALM_GITHUB_COPILOT = none ∧
          getToken (disconnect store) REALM_GITHUB_COPILOT_SESSION = none) ∧
      ((strIncludes e "401" || strIncludes e "invalid"
          || strIncludes e "expired") = false →
        refreshSessionToken store now ex = ⟨true, true, store, .error e⟩)) ∧
    (∀ r, (refreshSessionToken store now ex).result = .ok r →
      ∃ ct, ex = .ok ct ∧ r = ct.token) := by
  refine ⟨?_, ?_, ?_⟩
  · intro hget
    unfold refreshSessionToken
    rw [hget]
  · intro authTok authMeta e hget hne hex
    subst hex
    constructor
    · intro hinc
      refine ⟨?_, getToken_disconnect store⟩
      unfold refreshSessionToken
      rw [hget]
      simp [hne, hinc]
    · intro hinc
      unfold refreshSessionToken
      rw [hget]
      simp [hne, hinc]
  · intro r hr
    unfold refreshSessionToken at hr
    cases hget : getToken store REALM_GITHUB_COPILOT with
    | none =>
      rw [hget] at hr
      simp at hr
    | some p =>
      obtain ⟨authTok, authMeta⟩ := p
      rw [hget] at hr
      by_cases hne : authTok = ""
      · simp [hne] at hr
      · simp only [if_neg hne] at hr
        cases ex with
        | ok ct =>
          refine ⟨ct, rfl, ?_⟩
          simp at hr
          exact hr.symm
        | error e =>
          by_cases hinc : (strIncludes e "401" || strIncludes e "invalid"
              || strIncludes e "expired") = true
          · simp [hinc] at hr
          · simp only [Bool.not_eq_true] at hinc
            simp [hinc] at hr

/-- C4 amended-claim witness: a store with only an expired session record
raises the not-authenticated failure unchanged; a store with an access token
whose exchange fails with a 401-type message ends with both records gone. -/
theorem C4_refresh_failure_witness :
    refreshSessionToken
        [⟨REALM_GITHUB_COPILOT_SESSION, "\x7b\"expiresAt\":1000\x7d", "stok"⟩] 0
        (.error "x")
      = ⟨true, false,
          [⟨REALM_GITHUB_COPILOT_SESSION, "\x7b\"expiresAt\":1000\x7d", "stok"⟩],
          .error "Not authenticated. Please connect to GitHub Copilot."⟩ ∧
    refreshSessionToken
        [⟨REALM_GITHUB_COPILOT, "\x7b\x7d", "atok"⟩,
          ⟨REALM_GITHUB_COPILOT_SESSION, "\x7b\"expiresAt\":1000\x7d", "stok"⟩] 0
        (.error "HTTP 401: bad credentials")
      = ⟨true, true,
          disconnect
            [⟨REALM_GITHUB_COPILOT, "\x7b\x7d", "atok"⟩,
              ⟨REALM_GITHUB_COPILOT_SESSION, "\x7b\"expiresAt\":1000\x7d", "stok"⟩],
          .error "GitHub session expired. Please reconnect to GitHub Copilot."⟩ := by
  constructor
  · exact (C4_refresh_failure _ 0 (.error "x")).1 rfl
  · exact (((C4_refresh_failure
      [⟨REALM_GITHUB_COPILOT, "\x7b\x7d", "atok"⟩,
        ⟨REALM_GITHUB_COPILOT_SESSION, "\x7b\"expiresAt\":1000\x7d", "stok"⟩] 0
      (.error "HTTP 401: bad credentials")).2.1 "atok" (.obj [])
      "HTTP 401: bad credentials" rfl (by decide) rfl).1 (by decide)).1

/-- With the shipped (pairwise-distinct, five-entry) ranked list,
`findFallbackModel` always yields a model distinct from the current one. -/
theorem findFallbackModel_some_ne (available : List String) (current : String) :
    ∃ fb, findFallbackModel FALLBACK_MODELS available current = some fb ∧
      fb ≠ current := by
  have hfind : ∃ fb0, FALLBACK_MODELS.find? (fun c => c ≠ current) = some fb0 ∧
      fb0 ≠ current := by
    by_cases h1 : current = "claude-sonnet-4.5"
    · subst h1
      exact ⟨"gpt-5", by decide, by decide⟩
    · refine ⟨"claude-sonnet-4.5", ?_, fun hc => h1 hc.symm⟩
      have hp : (fun c => decide (c ≠ current)) "claude-sonnet-4.5" = true := by
        simp
        exact fun hc => h1 hc.symm
      exact List.find?_cons_of_pos _ hp
  obtain ⟨fb0, hfb0, hne0⟩ := hfind
  simp only [ne_eq, decide_not] at hfb0
  unfold findFallbackModel
  by_cases hA : available.isEmpty
  · refine ⟨fb0, ?_, hne0⟩
    simp [hA, hfb0]
  · cases hp : pickFallbackModel FALLBACK_MODELS available with
    | none =>
      refine ⟨fb0, ?_, hne0⟩
      simp [hA, hp, hfb0]
    | some fbp =>
      by_cases hpe : fbp = current
      · refine ⟨fb0, ?_, hne0⟩
        simp [hA, hp, hpe, hfb0]
      · refine ⟨fbp, ?_, hpe⟩
        simp [hA, hp, hpe]

/-- C2: a rejected first response whose status is 400/404/422 with a
model-related body (the `shouldRetryWithFallback` test) is retried exactly
once, against a fallback model distinct from the one just tried (so exactly
two requests go out, and the outcome is the retry's outcome); any other
rejection is surfaced as the decoded error with no second request, a 401 in
particular producing the fixed authentication-failure message. -/
theorem C2_chat_retry_policy (available : List String) (requested : String)
    (resp1 resp2 : HttpResp) (hfail : resp1.ok = false) :
    (shouldRetryWithFallback resp1.status resp1.bodyText = true →
      ∃ fb, findFallbackModel FALLBACK_MODELS available
            (resolveModel FALLBACK_MODELS available requested) = some fb ∧
        fb ≠ resolveModel FALLBACK_MODELS available requested ∧
        chat available requested resp1 resp2
          = ([resolveModel FALLBACK_MODELS available requested, fb],
              if resp2.ok then .ok resp2
              else .error (formatApiError resp2.status resp2.bodyText))) ∧
    (shouldRetryWithFallback resp1.status resp1.bodyText = false →
      chat available requested resp1 resp2
        = ([resolveModel FALLBACK_MODELS available requested],
            .error (formatApiError resp1.status resp1.bodyText))) ∧
    (resp1.status = 401 →
      chat available requested resp1 resp2
        = ([resolveModel FALLBACK_MODELS available requested],
            .error "Copilot API error (401): Authentication failed. Please reconnect to GitHub Copilot.")) := by
  have h401msg : ∀ t, formatApiError 401 t
      = "Copilot API error (401): Authentication failed. Please reconnect to GitHub Copilot." := by
    intro t
    unfold formatApiError
    rfl
  have h401retry : ∀ t, shouldRetryWithFallback 401 t = false := by
    intro t
    unfold shouldRetryWithFallback
    rfl
  refine ⟨?_, ?_, ?_⟩
  · intro hretry
    obtain ⟨fb, hfb, hne⟩ :=
      findFallbackModel_some_ne available (resolveModel FALLBACK_MODELS available requested)
    refine ⟨fb, hfb, hne, ?_⟩
    unfold chat
    simp only [hfail, Bool.false_eq_true, if_false, hretry, if_true, hfb]
    cases h2 : resp2.ok <;> simp [hne, h2]
  · intro hretry
    unfold chat
    simp only [hfail, Bool.false_eq_true, if_false, hretry]
  · intro h401
    have hr : shouldRetryWithFallback resp1.status resp1.bodyText = false := by
      rw [h401]
      exact h401retry _
    have hmsg : formatApiError resp1.status resp1.bodyText
        = "Copilot API error (401): Authentication failed. Please reconnect to GitHub Copilot." := by
      rw [h401]
      exact h401msg _
    unfold chat
    simp only [hfail, Bool.false_eq_true, if_false, hr, hmsg]

/-- C2 witness: a 404 "model not found" against a catalog that cannot serve
the requested model retries once with the distinct ranked fallback and
succeeds; a 401 is not retried and surfaces the fixed authentication error. -/
theorem C2_chat_retry_policy_witness :
    chat ["a"] "m" ⟨false, 404, "model not found"⟩ ⟨true, 200, ""⟩
        = (["a", "claude-sonnet-4.5"], .ok ⟨true, 200, ""⟩) ∧
      chat ["a"] "m" ⟨false, 401, "unauthorized"⟩ ⟨true, 200, ""⟩
        = (["a"],
            .error "Copilot API error (401): Authentication failed. Please reconnect to GitHub Copilot.") := by
  constructor
  · obtain ⟨fb, hfb, hne, hc⟩ :=
      (C2_chat_retry_policy ["a"] "m" ⟨false, 404, "model not found"⟩ ⟨true, 200, ""⟩
        rfl).1 (by decide)
    have hfb' : fb = "claude-sonnet-4.5" := by
      have : findFallbackModel FALLBACK_MODELS ["a"]
          (resolveModel FALLBACK_MODELS ["a"] "m") = some "claude-sonnet-4.5" := by
        decide
      rw [this] at hfb
      exact (Option.some.injEq _ _ ▸ hfb).symm
    rw [hfb'] at hc
    simpa using hc
  · exact (C2_chat_retry_policy ["a"] "m" ⟨false, 401, "unauthorized"⟩ ⟨true, 200, ""⟩
      rfl).2.2 rfl

/-- C8 counterexample: a 250-character plain-text body (does not look like
JSON) is embedded in the surfaced message IN FULL - 275 characters total, no
truncation to 200 and no ellipsis - contradicting "otherwise, the raw body
text is truncated to at most 200 characters (plus an ellipsis)". -/
theorem C8_counterexample :
    formatApiError 500 ⟨List.replicate 250 'a'⟩
        = "Copilot API error (500): " ++ ⟨List.replicate 250 'a'⟩ ∧
      (formatApiError 500 ⟨List.replicate 250 'a'⟩).data.length = 275 := by
  constructor
  · rfl
  · rfl

/-- C8 (amended): for a rejection whose status is neither 401 nor 403, the
surfaced message embeds a message decoded from the body: when the trimmed
body starts with a brace or bracket and parses as JSON, the error message
field (`error.message`) replaces the body; when it starts with a brace or
bracket but fails to parse, the raw text is truncated to at most 200
characters plus an ellipsis; when it does not look like JSON, the raw body
text is embedded unmodified and untruncated. -/
theorem C8_formatApiError_decoding (status : Int) (text : String)
    (h401 : status ≠ 401) (h403 : status ≠ 403) :
    (∀ j e m,
      (strStartsWith (strTrim text) "\x7b" || strStartsWith (strTrim text) "[") = true →
      jsonParse (strTrim text) = some j → jGet j "error" = some e →
      jGet e "message" = some m → jsTruthy m = true →
      formatApiError status text
        = "Copilot API error (" ++ toString status ++ "): " ++ jsToString m) ∧
    (text ≠ "" →
      (strStartsWith (strTrim text) "\x7b" || strStartsWith (strTrim text) "[") = true →
      jsonParse (strTrim text) = none →
      formatApiError status text
        = "Copilot API error (" ++ toString status ++ "): " ++
            (if text.data.length > 200 then strTake text 200 ++ "..." else text)) ∧
    (text ≠ "" →
      (strStartsWith (strTrim text) "\x7b" || strStartsWith (strTrim text) "[") = false →
      formatApiError status text
        = "Copilot API error (" ++ toString status ++ "): " ++ text) := by
  refine ⟨?_, ?_, ?_⟩
  · intro j e m hstart hparse herr hmsg htru
    unfold formatApiError
    simp only [if_neg h401, if_neg h403, hstart, if_true, hparse, herr, hmsg, htru]
  · intro hne hstart hparse
    unfold formatApiError
    simp only [if_neg h401, if_neg h403, hstart, if_true, hparse, hne, ite_true,
      ne_eq, not_false_iff]
  · intro hne hstart
    unfold formatApiError
    simp only [if_neg h401, if_neg h403, hstart, Bool.false_eq_true, if_false, hne,
      ne_eq, not_false_iff, ite_true]

/-- C8 amended-claim witness: a parsable JSON error body yields its
`error.message`; a short non-JSON body is embedded as-is (the 250-character
counterexample above shows the untruncated long case). -/
theorem C8_formatApiError_decoding_witness :
    formatApiError 500 "\x7b\"error\":\x7b\"message\":\"boom\"\x7d\x7d"
        = "Copilot API error (500): boom" ∧
      formatApiError 500 "oops" = "Copilot API error (500): oops" := by
  constructor
  · exact (C8_formatApiError_decoding 500 "\x7b\"error\":\x7b\"message\":\"boom\"\x7d\x7d"
      (by decide) (by decide)).1 (.obj [("error", .obj [("message", .str "boom")])])
      (.obj [("message", .str "boom")]) (.str "boom") rfl rfl rfl rfl rfl
  · exact (C8_formatApiError_decoding 500 "oops" (by decide) (by decide)).2.2
      (by decide) rfl

/-- A non-empty available list always yields a fallback pick. -/
theorem pickFallbackModel_ne_none (fallbackModels : List String)
    {available : List String} (h : available ≠ []) :
    pickFallbackModel fallbackModels available ≠ none := by
  unfold pickFallbackModel
  cases hf : fallbackModels.find? (fun c => available.contains c) with
  | some c => simp
  | none =>
    cases available with
    | nil => exact absurd rfl h
    | cons a t => simp

/-- C9: `getAvailableModels()` never yields an empty catalog: whatever the
token outcome and however every endpoint fails (error, non-OK status,
non-JSON, no extractable ids), the result is non-empty, the cache it writes
is non-empty, `pickFallbackModel` cannot return null on its result, and the
total-failure path returns and caches the hardcoded five-model ranked list. -/
theorem C9_getAvailableModels_nonempty (tokenOk : Bool)
    (responses : List FetchOutcome) (cachedModels : Option (List String))
    (cachedModelsAt now : Int)
    (hcache : ∀ ms, cachedModels = some ms → ms ≠ []) :
    (getAvailableModels tokenOk responses cachedModels cachedModelsAt now).1 ≠ [] ∧
    (∀ ms,
      (getAvailableModels tokenOk responses cachedModels cachedModelsAt now).2.1
        = some ms → ms ≠ []) ∧
    pickFallbackModel FALLBACK_MODELS
        (getAvailableModels tokenOk responses cachedModels cachedModelsAt now).1
      ≠ none ∧
    (cachedModels = none → (tokenOk = false ∨ tryModelUrls responses = []) →
      getAvailableModels tokenOk responses cachedModels cachedModelsAt now
        = (FALLBACK_MODELS, some FALLBACK_MODELS, now)) := by
  have hfresh : freshModels tokenOk responses ≠ [] := by
    unfold freshModels
    cases hf : (if tokenOk then tryModelUrls responses else []) with
    | nil => simp [FALLBACK_MODELS]
    | cons a t => simp
  have hmain :
      (getAvailableModels tokenOk responses cachedModels cachedModelsAt now).1 ≠ [] := by
    unfold getAvailableModels
    cases cachedModels with
    | none => exact hfresh
    | some ms =>
      by_cases htl : now - cachedModelsAt < MODELS_CACHE_TTL
      · simpa [htl] using hcache ms rfl
      · simp only [if_neg htl]
        exact hfresh
  refine ⟨hmain, ?_, pickFallbackModel_ne_none _ hmain, ?_⟩
  · intro ms hms
    unfold getAvailableModels at hms
    cases cachedModels with
    | none =>
      simp at hms
      rw [← hms]
      exact hfresh
    | some ms0 =>
      by_cases htl : now - cachedModelsAt < MODELS_CACHE_TTL
      · simp [htl] at hms
        rw [← hms]
        exact hcache ms0 rfl
      · simp [htl] at hms
        rw [← hms]
        exact hfresh
  · intro hnone hfail
    subst hnone
    unfold getAvailableModels freshModels
    rcases hfail with h | h
    · subst h
      simp
    · cases tokenOk <;> simp [h]

/-- C9 witness: with a failing session token and no cache, the hardcoded
ranked list is returned and cached, and the fallback pick on it is non-null. -/
theorem C9_getAvailableModels_nonempty_witness :
    getAvailableModels false [.netError, .httpError 500] none 0 0
        = (FALLBACK_MODELS, some FALLBACK_MODELS, 0) ∧
      pickFallbackModel FALLBACK_MODELS
          (getAvailableModels false [.netError, .httpError 500] none 0 0).1 ≠ none := by
  have h := C9_getAvailableModels_nonempty false [.netError, .httpError 500] none 0 0
    (fun ms hms => by cases hms)
  exact ⟨h.2.2.2 rfl (Or.inl rfl), h.2.2.1⟩

/-- C3: decoding the spec's three-frame sequence accumulates "Hello" with
exactly two `onChunk` invocations, each receiving the new delta and the
accumulation so far; a `data:` frame whose payload is the `[DONE]` sentinel,
blank, or unparsable leaves the decoder state unchanged; and at stream end
the captured frame error is raised if and only if no content was
accumulated. -/
theorem C3_streaming_decode :
    (runStream
        ["data: \x7b\"choices\":[\x7b\"delta\":\x7b\"content\":\"Hel\"\x7d\x7d]\x7d\n",
          "data: \x7b\"choices\":[\x7b\"delta\":\x7b\"content\":\"lo\"\x7d\x7d]\x7d\n",
          "data: [DONE]\n"]
        = ⟨"", "Hello", none, [("Hel", "Hel"), ("lo", "Hello")]⟩ ∧
      handleStreamingResponse
        ["data: \x7b\"choices\":[\x7b\"delta\":\x7b\"content\":\"Hel\"\x7d\x7d]\x7d\n",
          "data: \x7b\"choices\":[\x7b\"delta\":\x7b\"content\":\"lo\"\x7d\x7d]\x7d\n",
          "data: [DONE]\n"]
        = .ok "Hello") ∧
    (∀ (st : StreamState) (line : String),
      strStartsWith line "data: " = true →
      (strTrim (strDrop line 6) = "[DONE]" ∨ strTrim (strDrop line 6) = "" ∨
        jsonParse (strTrim (strDrop line 6)) = none) →
      processLine st line = st) ∧
    (∀ (st : StreamState) (e : Json), st.errorMessage = some e →
      (finishStream st = .error (jsToString e) ↔ st.fullContent = "")) ∧
    (∀ st : StreamState, st.errorMessage = none →
      finishStream st = .ok st.fullContent) := by
  refine ⟨⟨rfl, rfl⟩, ?_, ?_, ?_⟩
  · intro st line hstart hskip
    unfold processLine
    rw [hstart]
    by_cases hdone : strTrim (strDrop line 6) = "[DONE]"
    · simp [hdone]
    · by_cases hblank : strTrim (strDrop line 6) = ""
      · simp [hdone, hblank]
      · have hparse : jsonParse (strTrim (strDrop line 6)) = none := by
          rcases hskip with h | h | h
          · exact absurd h hdone
          · exact absurd h hblank
          · exact h
        simp [hdone, hblank, hparse]
  · intro st e herr
    unfold finishStream
    rw [herr]
    by_cases hfc : st.fullContent = "" <;> simp [hfc]
  · intro st hnone
    unfold finishStream
    rw [hnone]

/-- C3 witness: a `[DONE]` frame and an unparsable frame leave a concrete
decoder state unchanged; with a captured error and no content the error is
raised; with content accumulated it is not. -/
theorem C3_streaming_decode_witness :
    processLine ⟨"", "x", none, []⟩ "data: [DONE]" = ⟨"", "x", none, []⟩ ∧
      processLine ⟨"", "x", none, []⟩ "data: \x7bgarbage" = ⟨"", "x", none, []⟩ ∧
      finishStream ⟨"", "", some (.str "boom"), []⟩ = .error "boom" ∧
      finishStream ⟨"", "Hello", some (.str "boom"), []⟩ = .ok "Hello" := by
  refine ⟨?_, ?_, ?_, ?_⟩
  · exact C3_streaming_decode.2.1 ⟨"", "x", none, []⟩ "data: [DONE]" rfl (Or.inl rfl)
  · exact C3_streaming_decode.2.1 ⟨"", "x", none, []⟩ "data: \x7bgarbage" rfl
      (Or.inr (Or.inr rfl))
  · exact (C3_streaming_decode.2.2.1 ⟨"", "", some (.str "boom"), []⟩ (.str "boom")
      rfl).mpr rfl
  · have h := (C3_streaming_decode.2.2.1 ⟨"", "Hello", some (.str "boom"), []⟩
      (.str "boom") rfl)
    have h2 : finishStream ⟨"", "Hello", some (.str "boom"), []⟩ ≠ .error "boom" := by
      intro hc
      have := h.mp hc
      simp at this
    unfold finishStream at h2 ⊢
    simp at h2 ⊢

end ZA
